import Mathlib

/-!
Verification of the UM (Universal Machine) implementation in `um.c` /
`um.h`.  The C code is shallowly embedded: 32-bit machine words become
`Nat` with explicit `% 2^32` where overflow matters, the Hanson `Seq_T`
of segments becomes a `List (Option (List Nat))` (a `none` slot is an
unmapped/NULL segment), the register `UArray_T` becomes a `List Nat` of
length 8, and an `assert` failure or other fatal condition becomes
`Option.none` (respectively the `fatal` outcome of the step function).
-/

/-! ## Bit-field decoder (um.c, um_execute)

The C code extracts fields with 64-bit shift pairs such as
`((uint64_t)word << 32) >> 60`.  Each is translated literally:
a left shift by `k` is `· * 2^k` followed by `% 2^64`, a right
shift by `k` is `· / 2^k`. -/

/-- `((uint64_t)word << 32) >> 60` : the opcode, bits 31..28. -/
def opcode_of (word : Nat) : Nat := word * 2 ^ 32 % 2 ^ 64 / 2 ^ 60

/-- `((uint64_t)word << 36) >> 61` : register A of the load-value format,
bits 27..25. -/
def ra_lv (word : Nat) : Nat := word * 2 ^ 36 % 2 ^ 64 / 2 ^ 61

/-- `((uint64_t)word << 39) >> 39` : the 25-bit immediate of the
load-value format, bits 24..0. -/
def value_lv (word : Nat) : Nat := word * 2 ^ 39 % 2 ^ 64 / 2 ^ 39

/-- `((uint64_t)word << 55) >> 61` : register A of the standard format,
bits 8..6. -/
def ra_std (word : Nat) : Nat := word * 2 ^ 55 % 2 ^ 64 / 2 ^ 61

/-- `((uint64_t)word << 58) >> 61` : register B of the standard format,
bits 5..3. -/
def rb_std (word : Nat) : Nat := word * 2 ^ 58 % 2 ^ 64 / 2 ^ 61

/-- `((uint64_t)word << 61) >> 61` : register C of the standard format,
bits 2..0. -/
def rc_std (word : Nat) : Nat := word * 2 ^ 61 % 2 ^ 64 / 2 ^ 61

/-! ## Registers (um.c, registers_new / registers_put / registers_get)

The register file is a `UArray_T` of 8 `uint32_t`s.  `registers_put` and
`registers_get` assert the index is below 8; every call site passes a
3-bit decoded field, so the assert cannot fire and the operations are
modelled total. -/

def registers_new : List Nat := List.replicate 8 0

def registers_put (r : List Nat) (num_register value : Nat) : List Nat :=
  r.set num_register value

def registers_get (r : List Nat) (num_register : Nat) : Nat :=
  r.getD num_register 0

/-! ## Segmented memory (um.c, memory_new .. memory_unmap)

`Memory_T` holds a `Seq_T` of segments (NULL = unmapped) and a `Seq_T`
of free ids used as a queue: `Seq_addhi` appends at the back (unmap and
the initializer), `Seq_remlo` pops from the front (map). -/

structure Memory where
  segments : List (Option (List Nat))
  free : List Nat
deriving DecidableEq

/-- `memory_get`: bounds-checked read; an `assert` failure
(segment out of table range, unmapped segment, offset out of bounds)
is `none`. -/
def memory_get (m : Memory) (seg off : Nat) : Option Nat :=
  match m.segments[seg]? with
  | some (some queried_segment) => queried_segment[off]?
  | _ => none

/-- `memory_put`: bounds-checked write; an `assert` failure is `none`. -/
def memory_put (m : Memory) (seg off val : Nat) : Option Memory :=
  match m.segments[seg]? with
  | some (some queried_segment) =>
      if off < queried_segment.length then
        some { m with
               segments := m.segments.set seg (some (queried_segment.set off val)) }
      else none
  | _ => none

/-- `memory_map`: builds a zero-filled segment of the requested length.
If the free list is empty the segment is appended at the end of the
table (`Seq_addhi`) and the new index returned; otherwise the front id
of the free list is popped (`Seq_remlo`) and the segment installed at
that slot (`Seq_put`, whose range assert is modelled by the bound
check).  Returns the updated memory and the chosen index. -/
def memory_map (m : Memory) (length : Nat) : Option (Memory × Nat) :=
  let seg : List Nat := List.replicate length 0
  match m.free with
  | [] => some ({ segments := m.segments ++ [some seg], free := [] },
                m.segments.length)
  | index :: rest =>
      if index < m.segments.length then
        some ({ segments := m.segments.set index (some seg), free := rest },
              index)
      else none

/-- `memory_unmap`: asserts the id is non-zero and currently mapped,
frees the slot and pushes the id onto the back of the free list
(`Seq_addhi`). -/
def memory_unmap (m : Memory) (seg_num : Nat) : Option Memory :=
  if seg_num = 0 then none
  else
    match m.segments[seg_num]? with
    | some (some _) =>
        some { segments := m.segments.set seg_num none,
               free := m.free ++ [seg_num] }
    | _ => none

/-- `memory_new`: ten NULL slots with free list `[0, …, 9]`
(`Seq_addlo(NULL)` / `Seq_addhi(seg_num)` for `seg_num = 0 .. 9`),
then `memory_map` for segment zero.  That inner map always succeeds
(the popped id 0 is within the ten slots); the fallback branch is dead
code present only to keep the definition total. -/
def memory_new (length : Nat) : Memory :=
  let init : Memory := { segments := List.replicate 10 none,
                         free := List.range 10 }
  match memory_map init length with
  | some (m, _) => m
  | none => init

/-! ## The UM state

`UM_T` bundles the register file and the memory.  The execution state
additionally carries the program counter of `um_execute`'s loop and the
host byte streams: `inp` is the bytes still unread on standard input
(`[]` means the next `fgetc` observes EOF) and `outp` the bytes emitted
so far, in order. -/

structure UMState where
  reg : List Nat
  mem : Memory
  pc : Nat
  inp : List Nat
  outp : List Nat
deriving DecidableEq

/-- The length of segment zero (0 when segment zero is absent, a
situation `um_execute` treats as an assert failure). -/
def segZeroLen (s : UMState) : Nat :=
  match s.mem.segments[0]? with
  | some (some seg_zero) => seg_zero.length
  | _ => 0

/-! ## Opcode handlers (um.h)

Each handler asserts its register indices are below 8 (`none` on
failure) and otherwise mirrors the C body.  Handlers never touch the
program counter. -/

/-- `conditional_move` (CMOV). -/
def conditional_move (s : UMState) (ra rb rc : Nat) : Option UMState :=
  if ra < 8 ∧ rb < 8 ∧ rc < 8 then
    if registers_get s.reg rc ≠ 0 then
      some { s with reg := registers_put s.reg ra (registers_get s.reg rb) }
    else some s
  else none

/-- `segmented_load` (SLOAD). -/
def segmented_load (s : UMState) (ra rb rc : Nat) : Option UMState :=
  if ra < 8 ∧ rb < 8 ∧ rc < 8 then
    let rb_val := registers_get s.reg rb
    let rc_val := registers_get s.reg rc
    match memory_get s.mem rb_val rc_val with
    | some v => some { s with reg := registers_put s.reg ra v }
    | none => none
  else none

/-- `segmented_store` (SSTORE). -/
def segmented_store (s : UMState) (ra rb rc : Nat) : Option UMState :=
  if ra < 8 ∧ rb < 8 ∧ rc < 8 then
    let ra_val := registers_get s.reg ra
    let rb_val := registers_get s.reg rb
    match memory_put s.mem ra_val rb_val (registers_get s.reg rc) with
    | some m => some { s with mem := m }
    | none => none
  else none

/-- `add` (ADD): `uint32_t` addition wraps modulo `2^32`. -/
def add (s : UMState) (ra rb rc : Nat) : Option UMState :=
  if ra < 8 ∧ rb < 8 ∧ rc < 8 then
    some { s with
           reg := registers_put s.reg ra
                    ((registers_get s.reg rb + registers_get s.reg rc) % 2 ^ 32) }
  else none

/-- `multiply` (MUL): `uint32_t` multiplication wraps modulo `2^32`. -/
def multiply (s : UMState) (ra rb rc : Nat) : Option UMState :=
  if ra < 8 ∧ rb < 8 ∧ rc < 8 then
    some { s with
           reg := registers_put s.reg ra
                    ((registers_get s.reg rb * registers_get s.reg rc) % 2 ^ 32) }
  else none

/-- `divide` (DIV): asserts the divisor is non-zero. -/
def divide (s : UMState) (ra rb rc : Nat) : Option UMState :=
  if ra < 8 ∧ rb < 8 ∧ rc < 8 then
    let rc_val := registers_get s.reg rc
    if rc_val = 0 then none
    else some { s with
                reg := registers_put s.reg ra (registers_get s.reg rb / rc_val) }
  else none

/-- `nand` (NAND): `~(rb_val & rc_val)` over 32 bits; the complement of
`x < 2^32` is `2^32 - 1 - x`. -/
def nand (s : UMState) (ra rb rc : Nat) : Option UMState :=
  if ra < 8 ∧ rb < 8 ∧ rc < 8 then
    some { s with
           reg := registers_put s.reg ra
                    (2 ^ 32 - 1 -
                      Nat.land (registers_get s.reg rb) (registers_get s.reg rc)) }
  else none

/-- `map_segment` (MAP): maps a segment of length `r[C]` and stores the
returned index in `r[B]`. -/
def map_segment (s : UMState) (ra rb rc : Nat) : Option UMState :=
  if ra < 8 ∧ rb < 8 ∧ rc < 8 then
    match memory_map s.mem (registers_get s.reg rc) with
    | some (m, index) =>
        some { s with mem := m, reg := registers_put s.reg rb index }
    | none => none
  else none

/-- `unmap_segment` (UNMAP): unmaps segment `r[C]`. -/
def unmap_segment (s : UMState) (ra rb rc : Nat) : Option UMState :=
  if ra < 8 ∧ rb < 8 ∧ rc < 8 then
    match memory_unmap s.mem (registers_get s.reg rc) with
    | some m => some { s with mem := m }
    | none => none
  else none

/-- `output` (OUT): asserts `r[C] < 256` and emits the byte. -/
def output (s : UMState) (ra rb rc : Nat) : Option UMState :=
  if ra < 8 ∧ rb < 8 ∧ rc < 8 then
    let rc_val := registers_get s.reg rc
    if rc_val < 256 then some { s with outp := s.outp ++ [rc_val] }
    else none
  else none

/-- The conversion of a C `int` to `uint32_t` (modulo `2^32`). -/
def int_to_u32 (i : Int) : Nat := (i % (2 ^ 32 : Int)).toNat

/-- `input` (IN): reads one byte with `fgetc`.  On EOF the C handler
first writes `~0` into `r[C]` and then — the second `registers_put` is
unconditional — writes `(uint32_t)EOF`, i.e. `(uint32_t)(-1)`.
Otherwise it writes the byte read. -/
def input (s : UMState) (ra rb rc : Nat) : Option UMState :=
  if ra < 8 ∧ rb < 8 ∧ rc < 8 then
    match s.inp with
    | [] =>
        let r1 := registers_put s.reg rc (2 ^ 32 - 1)
        some { s with reg := registers_put r1 rc (int_to_u32 (-1)) }
    | character :: rest =>
        some { s with reg := registers_put s.reg rc (int_to_u32 (Int.ofNat character)),
                      inp := rest }
  else none

/-- `load_value` (LV). -/
def load_value (s : UMState) (ra val : Nat) : Option UMState :=
  if ra < 8 then some { s with reg := registers_put s.reg ra val }
  else none

/-- `load_program` (LOADP), together with the caller's assignment
`prog_counter = load_program(um, ra, rb, rc)` in `um_execute`: when
`r[B]` is zero only the program counter changes; otherwise segment
`r[B]` is fetched (`Seq_get` asserting it is in range, then asserting
it is mapped), copied word by word, the old segment zero freed
(asserting it was mapped), and the copy installed at slot 0.  The
returned program counter is `r[C]`. -/
def load_program (s : UMState) (ra rb rc : Nat) : Option UMState :=
  if ra < 8 ∧ rb < 8 ∧ rc < 8 then
    let rb_val := registers_get s.reg rb
    if rb_val = 0 then
      some { s with pc := registers_get s.reg rc }
    else
      match s.mem.segments[rb_val]? with
      | some (some to_copy) =>
          match s.mem.segments[0]? with
          | some (some _) =>
              some { s with
                     mem := { s.mem with
                              segments := s.mem.segments.set 0 (some to_copy) },
                     pc := registers_get s.reg rc }
          | _ => none
      | _ => none
  else none

/-- `instruction_call`: asserts the opcode is below 14 and the register
indices below 8, then dispatches opcodes 0–11.  HALT frees the machine
and exits with success, signalled by the `true` flag.  Opcodes 12 and 13
fall through to `default: assert(1)`, a no-op (they are dispatched
before `instruction_call` in `um_execute`). -/
def instruction_call (s : UMState) (op ra rb rc : Nat) :
    Option (UMState × Bool) :=
  if op < 14 ∧ ra < 8 ∧ rb < 8 ∧ rc < 8 then
    match op with
    | 0 => (conditional_move s ra rb rc).map (fun s' => (s', false))
    | 1 => (segmented_load s ra rb rc).map (fun s' => (s', false))
    | 2 => (segmented_store s ra rb rc).map (fun s' => (s', false))
    | 3 => (add s ra rb rc).map (fun s' => (s', false))
    | 4 => (multiply s ra rb rc).map (fun s' => (s', false))
    | 5 => (divide s ra rb rc).map (fun s' => (s', false))
    | 6 => (nand s ra rb rc).map (fun s' => (s', false))
    | 7 => some (s, true)
    | 8 => (map_segment s ra rb rc).map (fun s' => (s', false))
    | 9 => (unmap_segment s ra rb rc).map (fun s' => (s', false))
    | 10 => (output s ra rb rc).map (fun s' => (s', false))
    | 11 => (input s ra rb rc).map (fun s' => (s', false))
    | _ => some (s, false)
  else none

/-! ## The fetch-decode-execute loop (um.c, um_execute) -/

/-- The possible outcomes of one loop iteration. -/
inductive Outcome where
  | running (s : UMState)
  | halted (s : UMState)
  | finished (s : UMState)
  | fatal
deriving DecidableEq

/-- One iteration of `um_execute`'s loop.  The C `prog_counter` is a
signed `int` assigned `load_program`'s `uint32_t` return value; the
`pc` field stores that `uint32_t` value, and its conversion to `int`
is negative exactly when it lies in `[2^31, 2^32)`.  A negative
counter makes the guard `prog_counter < seg_zero_len` true and the
fetch `UArray_at(seg_zero, prog_counter)` fail its bounds assert — a
fatal abort, modelled by the first branch.  Otherwise, if the counter
has reached the end of segment zero the loop exits (`finished`);
otherwise the word at the counter is fetched, the counter incremented,
and the instruction decoded and dispatched.  `halted` is the HALT
instruction's `exit(EXIT_SUCCESS)`; `fatal` is any assert failure. -/
def step (s : UMState) : Outcome :=
  match s.mem.segments[0]? with
  | some (some seg_zero) =>
      if 2 ^ 31 ≤ s.pc then Outcome.fatal
      else if s.pc < seg_zero.length then
        let word := seg_zero.getD s.pc 0
        let opcode := opcode_of word
        let s1 : UMState := { s with pc := s.pc + 1 }
        if opcode = 13 then
          match load_value s1 (ra_lv word) (value_lv word) with
          | some s2 => Outcome.running s2
          | none => Outcome.fatal
        else
          if opcode = 12 then
            match load_program s1 (ra_std word) (rb_std word) (rc_std word) with
            | some s2 => Outcome.running s2
            | none => Outcome.fatal
          else
            match instruction_call s1 opcode (ra_std word) (rb_std word) (rc_std word) with
            | some (s2, true) => Outcome.halted s2
            | some (s2, false) => Outcome.running s2
            | none => Outcome.fatal
      else Outcome.finished s
  | _ => Outcome.fatal

/-- Runs at most `fuel` loop iterations; `running` means the loop has
not yet terminated. -/
def steps : Nat → UMState → Outcome
  | 0, s => Outcome.running s
  | fuel + 1, s =>
      match step s with
      | Outcome.running s' => steps fuel s'
      | o => o

/-! ## The driver (um.c, main / populate_seg_zero / construct_word) -/

/-- One iteration of `construct_word`'s loop:
`word = ((word >> hi) << hi) | ((word << (64-lsb)) >> (64-lsb)) | (c << lsb)`
with `hi = 8 + lsb`, over `uint64_t` values truncated back into the
32-bit `word`.  (For `lsb = 0` the middle shift amount is 64; shifting
a 64-bit value by 64 is modelled as producing 0, which yields the same
word because the bits below `lsb` are 0 there.) -/
def construct_word_step (word c lsb : Nat) : Nat :=
  let hi := 8 + lsb
  (word / 2 ^ hi * 2 ^ hi |||
    word * 2 ^ (64 - lsb) % 2 ^ 64 / 2 ^ (64 - lsb) |||
    c * 2 ^ lsb) % 2 ^ 32

/-- `construct_word`: packs the next four bytes of the file,
big-endian, into one 32-bit word (`lsb = 24, 16, 8, 0`). -/
def construct_word (bytes : List Nat) : Nat :=
  let w1 := construct_word_step 0 (bytes.getD 0 0) 24
  let w2 := construct_word_step w1 (bytes.getD 1 0) 16
  let w3 := construct_word_step w2 (bytes.getD 2 0) 8
  construct_word_step w3 (bytes.getD 3 0) 0

/-- `um_new` plus the start of `um_execute`: fresh registers, a memory
whose segment zero has the given length, program counter 0, and the
host streams. -/
def um_new (length : Nat) (inp : List Nat) : UMState :=
  { reg := registers_new, mem := memory_new length,
    pc := 0, inp := inp, outp := [] }

/-- The loop of `populate_seg_zero`: for each `index < size`, construct
the word from the next four file bytes and `populate` it, i.e.
`memory_put` it into segment zero at that offset.  The loop is driven
by the remaining iteration count `size - index`. -/
def populate_go : Nat → UMState → List Nat → Nat → Option UMState
  | 0, s, _, _ => some s
  | remaining + 1, s, bytes, index =>
      match memory_put s.mem 0 index (construct_word (bytes.drop (4 * index))) with
      | some m => populate_go remaining { s with mem := m } bytes (index + 1)
      | none => none

/-- `populate_seg_zero`. -/
def populate_seg_zero (s : UMState) (bytes : List Nat) (size : Nat) :
    Option UMState :=
  populate_go size s bytes 0

/-- The result of running `main`. -/
inductive MainResult where
  | usageError
  | loadError
  | run (o : Outcome)
deriving DecidableEq

/-- `main`: rejects a wrong argument count with a usage message and
`EXIT_FAILURE`; otherwise computes `size = st_size / CHAR_PER_WORD`
(integer division — there is no check that the byte count is a
multiple of 4), builds the machine, populates segment zero and
executes.  `loadError` stands for an assert failure inside
`populate_seg_zero`; it is unreachable because every offset written is
below `size`. -/
def um_main (argc : Nat) (fileBytes inp : List Nat) (fuel : Nat) : MainResult :=
  if argc ≠ 2 then MainResult.usageError
  else
    let size := fileBytes.length / 4
    match populate_seg_zero (um_new size inp) fileBytes size with
    | some s => MainResult.run (steps fuel s)
    | none => MainResult.loadError

/-! ## Observers used to state concrete counterexamples -/

def outcome_pc : Outcome → Option Nat
  | Outcome.running s => some s.pc
  | Outcome.halted s => some s.pc
  | Outcome.finished s => some s.pc
  | Outcome.fatal => none

def outcome_seg_zero_len : Outcome → Option Nat
  | Outcome.running s => some (segZeroLen s)
  | Outcome.halted s => some (segZeroLen s)
  | Outcome.finished s => some (segZeroLen s)
  | Outcome.fatal => none

def main_pc : MainResult → Option Nat
  | MainResult.run o => outcome_pc o
  | _ => none

def main_seg_zero_len : MainResult → Option Nat
  | MainResult.run o => outcome_seg_zero_len o
  | _ => none

def main_is_running : MainResult → Bool
  | MainResult.run (Outcome.running _) => true
  | _ => false

def main_is_halted : MainResult → Bool
  | MainResult.run (Outcome.halted _) => true
  | _ => false

def main_is_run : MainResult → Bool
  | MainResult.run _ => true
  | _ => false

def main_is_fatal : MainResult → Bool
  | MainResult.run Outcome.fatal => true
  | _ => false

/-! ## Basic lemmas about the register file and segment table -/

theorem registers_get_put_self (r : List Nat) (i v : Nat) (h : i < r.length) :
    registers_get (registers_put r i v) i = v := by
  simp [registers_get, registers_put, List.getD_eq_getElem?_getD,
    List.getElem?_set_self, h]

theorem registers_get_put_ne (r : List Nat) (i j v : Nat) (h : j ≠ i) :
    registers_get (registers_put r i v) j = registers_get r j := by
  simp [registers_get, registers_put, List.getD_eq_getElem?_getD,
    List.getElem?_set_ne (Ne.symm h)]

theorem registers_put_length (r : List Nat) (i v : Nat) :
    (registers_put r i v).length = r.length := by
  simp [registers_put]

/-! ## Decoded fields are in range -/

theorem opcode_of_lt (word : Nat) : opcode_of word < 16 := by
  unfold opcode_of; omega

theorem ra_std_lt (word : Nat) : ra_std word < 8 := by
  unfold ra_std; omega

theorem rb_std_lt (word : Nat) : rb_std word < 8 := by
  unfold rb_std; omega

theorem rc_std_lt (word : Nat) : rc_std word < 8 := by
  unfold rc_std; omega

theorem ra_lv_lt (word : Nat) : ra_lv word < 8 := by
  unfold ra_lv; omega

/-! ## Frame lemmas: no opcode handler touches the program counter -/

theorem conditional_move_pc (s s' : UMState) (ra rb rc : Nat)
    (h : conditional_move s ra rb rc = some s') : s'.pc = s.pc := by
  unfold conditional_move at h
  split at h
  · split at h <;> (injection h with h; subst h; rfl)
  · cases h

theorem segmented_load_pc (s s' : UMState) (ra rb rc : Nat)
    (h : segmented_load s ra rb rc = some s') : s'.pc = s.pc := by
  unfold segmented_load at h
  split at h
  · simp only [] at h
    split at h
    · injection h with h; subst h; rfl
    · cases h
  · cases h

theorem segmented_store_pc (s s' : UMState) (ra rb rc : Nat)
    (h : segmented_store s ra rb rc = some s') : s'.pc = s.pc := by
  unfold segmented_store at h
  split at h
  · simp only [] at h
    split at h
    · injection h with h; subst h; rfl
    · cases h
  · cases h

theorem add_pc (s s' : UMState) (ra rb rc : Nat)
    (h : add s ra rb rc = some s') : s'.pc = s.pc := by
  unfold add at h
  split at h
  · injection h with h; subst h; rfl
  · cases h

theorem multiply_pc (s s' : UMState) (ra rb rc : Nat)
    (h : multiply s ra rb rc = some s') : s'.pc = s.pc := by
  unfold multiply at h
  split at h
  · injection h with h; subst h; rfl
  · cases h

theorem divide_pc (s s' : UMState) (ra rb rc : Nat)
    (h : divide s ra rb rc = some s') : s'.pc = s.pc := by
  unfold divide at h
  split at h
  · simp only [] at h
    split at h
    · cases h
    · injection h with h; subst h; rfl
  · cases h

theorem nand_pc (s s' : UMState) (ra rb rc : Nat)
    (h : nand s ra rb rc = some s') : s'.pc = s.pc := by
  unfold nand at h
  split at h
  · injection h with h; subst h; rfl
  · cases h

theorem map_segment_pc (s s' : UMState) (ra rb rc : Nat)
    (h : map_segment s ra rb rc = some s') : s'.pc = s.pc := by
  unfold map_segment at h
  split at h
  · split at h
    · injection h with h; subst h; rfl
    · cases h
  · cases h

theorem unmap_segment_pc (s s' : UMState) (ra rb rc : Nat)
    (h : unmap_segment s ra rb rc = some s') : s'.pc = s.pc := by
  unfold unmap_segment at h
  split at h
  · split at h
    · injection h with h; subst h; rfl
    · cases h
  · cases h

theorem output_pc (s s' : UMState) (ra rb rc : Nat)
    (h : output s ra rb rc = some s') : s'.pc = s.pc := by
  unfold output at h
  split at h
  · simp only [] at h
    split at h
    · injection h with h; subst h; rfl
    · cases h
  · cases h

theorem input_pc (s s' : UMState) (ra rb rc : Nat)
    (h : input s ra rb rc = some s') : s'.pc = s.pc := by
  unfold input at h
  split at h
  · split at h <;> (injection h with h; subst h; rfl)
  · cases h

theorem load_value_pc (s s' : UMState) (ra val : Nat)
    (h : load_value s ra val = some s') : s'.pc = s.pc := by
  unfold load_value at h
  split at h
  · injection h with h; subst h; rfl
  · cases h

/-- Opcodes 0–11 (and the no-op default) leave the program counter where
`um_execute` put it. -/
theorem instruction_call_pc (s s' : UMState) (op ra rb rc : Nat) (b : Bool)
    (h : instruction_call s op ra rb rc = some (s', b)) : s'.pc = s.pc := by
  unfold instruction_call at h
  split at h
  case isFalse => cases h
  case isTrue hguard =>
    obtain ⟨hop, hra, hrb, hrc⟩ := hguard
    interval_cases op
    · rw [Option.map_eq_some'] at h
      obtain ⟨t, ht, hpair⟩ := h
      rw [Prod.mk.injEq] at hpair
      rw [← hpair.1]
      exact conditional_move_pc s t ra rb rc ht
    · rw [Option.map_eq_some'] at h
      obtain ⟨t, ht, hpair⟩ := h
      rw [Prod.mk.injEq] at hpair
      rw [← hpair.1]
      exact segmented_load_pc s t ra rb rc ht
    · rw [Option.map_eq_some'] at h
      obtain ⟨t, ht, hpair⟩ := h
      rw [Prod.mk.injEq] at hpair
      rw [← hpair.1]
      exact segmented_store_pc s t ra rb rc ht
    · rw [Option.map_eq_some'] at h
      obtain ⟨t, ht, hpair⟩ := h
      rw [Prod.mk.injEq] at hpair
      rw [← hpair.1]
      exact add_pc s t ra rb rc ht
    · rw [Option.map_eq_some'] at h
      obtain ⟨t, ht, hpair⟩ := h
      rw [Prod.mk.injEq] at hpair
      rw [← hpair.1]
      exact multiply_pc s t ra rb rc ht
    · rw [Option.map_eq_some'] at h
      obtain ⟨t, ht, hpair⟩ := h
      rw [Prod.mk.injEq] at hpair
      rw [← hpair.1]
      exact divide_pc s t ra rb rc ht
    · rw [Option.map_eq_some'] at h
      obtain ⟨t, ht, hpair⟩ := h
      rw [Prod.mk.injEq] at hpair
      rw [← hpair.1]
      exact nand_pc s t ra rb rc ht
    · rw [Option.some.injEq, Prod.mk.injEq] at h
      rw [← h.1]
    · rw [Option.map_eq_some'] at h
      obtain ⟨t, ht, hpair⟩ := h
      rw [Prod.mk.injEq] at hpair
      rw [← hpair.1]
      exact map_segment_pc s t ra rb rc ht
    · rw [Option.map_eq_some'] at h
      obtain ⟨t, ht, hpair⟩ := h
      rw [Prod.mk.injEq] at hpair
      rw [← hpair.1]
      exact unmap_segment_pc s t ra rb rc ht
    · rw [Option.map_eq_some'] at h
      obtain ⟨t, ht, hpair⟩ := h
      rw [Prod.mk.injEq] at hpair
      rw [← hpair.1]
      exact output_pc s t ra rb rc ht
    · rw [Option.map_eq_some'] at h
      obtain ⟨t, ht, hpair⟩ := h
      rw [Prod.mk.injEq] at hpair
      rw [← hpair.1]
      exact input_pc s t ra rb rc ht
    · rw [Option.some.injEq, Prod.mk.injEq] at h
      rw [← h.1]
    · rw [Option.some.injEq, Prod.mk.injEq] at h
      rw [← h.1]

/-! ## Frame lemmas: segment zero under the opcode handlers -/

theorem memory_put_zero_len (m m' : Memory) (seg off val : Nat) (z : List Nat)
    (h : memory_put m seg off val = some m')
    (h0 : m.segments[0]? = some (some z)) :
    ∃ z', m'.segments[0]? = some (some z') ∧ z'.length = z.length := by
  unfold memory_put at h
  split at h
  case _ qs heq =>
    split at h
    case isTrue hoff =>
      injection h with h
      subst h
      by_cases hseg : seg = 0
      · subst hseg
        rw [heq] at h0
        injection h0 with h0
        injection h0 with h0
        subst h0
        refine ⟨qs.set off val, ?_, by simp⟩
        have hlt : 0 < m.segments.length :=
          (List.getElem?_eq_some_iff.mp heq).1
        simp [List.getElem?_set_self hlt]
      · exact ⟨z, by simpa [List.getElem?_set_ne hseg] using h0, rfl⟩
    case isFalse => cases h
  case _ => cases h

theorem memory_map_zero (m m' : Memory) (len index : Nat)
    (v : Option (List Nat))
    (h : memory_map m len = some (m', index))
    (hfree : ∀ i ∈ m.free, i ≠ 0)
    (h0 : m.segments[0]? = some v) :
    m'.segments[0]? = some v := by
  unfold memory_map at h
  split at h
  case _ hnil =>
    injection h with h
    injection h with h _
    subst h
    have hlt : 0 < m.segments.length := (List.getElem?_eq_some_iff.mp h0).1
    simpa [List.getElem?_append_left hlt] using h0
  case _ i rest hcons =>
    split at h
    case isTrue hi =>
      injection h with h
      injection h with h _
      subst h
      have hne : i ≠ 0 := hfree i (by rw [hcons]; exact List.mem_cons_self i rest)
      simpa [List.getElem?_set_ne hne] using h0
    case isFalse => cases h

theorem memory_unmap_zero (m m' : Memory) (n : Nat)
    (h : memory_unmap m n = some m') :
    m'.segments[0]? = m.segments[0]? := by
  unfold memory_unmap at h
  split at h
  case isTrue => cases h
  case isFalse hne =>
    split at h
    case _ => injection h with h; subst h; exact List.getElem?_set_ne hne
    case _ => cases h

theorem conditional_move_mem (s s' : UMState) (ra rb rc : Nat)
    (h : conditional_move s ra rb rc = some s') : s'.mem = s.mem := by
  unfold conditional_move at h
  split at h
  · split at h <;> (injection h with h; subst h; rfl)
  · cases h

theorem segmented_load_mem (s s' : UMState) (ra rb rc : Nat)
    (h : segmented_load s ra rb rc = some s') : s'.mem = s.mem := by
  unfold segmented_load at h
  split at h
  · simp only [] at h
    split at h
    · injection h with h; subst h; rfl
    · cases h
  · cases h

theorem add_mem (s s' : UMState) (ra rb rc : Nat)
    (h : add s ra rb rc = some s') : s'.mem = s.mem := by
  unfold add at h
  split at h
  · injection h with h; subst h; rfl
  · cases h

theorem multiply_mem (s s' : UMState) (ra rb rc : Nat)
    (h : multiply s ra rb rc = some s') : s'.mem = s.mem := by
  unfold multiply at h
  split at h
  · injection h with h; subst h; rfl
  · cases h

theorem divide_mem (s s' : UMState) (ra rb rc : Nat)
    (h : divide s ra rb rc = some s') : s'.mem = s.mem := by
  unfold divide at h
  split at h
  · simp only [] at h
    split at h
    · cases h
    · injection h with h; subst h; rfl
  · cases h

theorem nand_mem (s s' : UMState) (ra rb rc : Nat)
    (h : nand s ra rb rc = some s') : s'.mem = s.mem := by
  unfold nand at h
  split at h
  · injection h with h; subst h; rfl
  · cases h

theorem output_mem (s s' : UMState) (ra rb rc : Nat)
    (h : output s ra rb rc = some s') : s'.mem = s.mem := by
  unfold output at h
  split at h
  · simp only [] at h
    split at h
    · injection h with h; subst h; rfl
    · cases h
  · cases h

theorem input_mem (s s' : UMState) (ra rb rc : Nat)
    (h : input s ra rb rc = some s') : s'.mem = s.mem := by
  unfold input at h
  split at h
  · split at h <;> (injection h with h; subst h; rfl)
  · cases h

theorem load_value_mem (s s' : UMState) (ra val : Nat)
    (h : load_value s ra val = some s') : s'.mem = s.mem := by
  unfold load_value at h
  split at h
  · injection h with h; subst h; rfl
  · cases h

theorem segmented_store_zero (s s' : UMState) (ra rb rc : Nat) (z : List Nat)
    (h : segmented_store s ra rb rc = some s')
    (h0 : s.mem.segments[0]? = some (some z)) :
    ∃ z', s'.mem.segments[0]? = some (some z') ∧ z'.length = z.length := by
  unfold segmented_store at h
  split at h
  · simp only [] at h
    split at h
    case _ m hput =>
      injection h with h
      subst h
      exact memory_put_zero_len _ m _ _ _ z hput h0
    case _ => cases h
  · cases h

theorem map_segment_zero (s s' : UMState) (ra rb rc : Nat) (v : Option (List Nat))
    (h : map_segment s ra rb rc = some s')
    (hfree : ∀ i ∈ s.mem.free, i ≠ 0)
    (h0 : s.mem.segments[0]? = some v) :
    s'.mem.segments[0]? = some v := by
  unfold map_segment at h
  split at h
  · split at h
    case _ m index hmap =>
      injection h with h
      subst h
      exact memory_map_zero s.mem m _ index v hmap hfree h0
    case _ => cases h
  · cases h

theorem unmap_segment_zero (s s' : UMState) (ra rb rc : Nat)
    (h : unmap_segment s ra rb rc = some s') :
    s'.mem.segments[0]? = s.mem.segments[0]? := by
  unfold unmap_segment at h
  split at h
  · split at h
    case _ m hunm => injection h with h; subst h; exact memory_unmap_zero s.mem m _ hunm
    case _ => cases h
  · cases h

/-- Opcodes 0–11 (and the no-op default) keep segment zero mapped with
an unchanged length, provided segment zero's id is not on the free list
(spec invariant 2: segment 0 is mapped, hence not free). -/
theorem instruction_call_zero (s s' : UMState) (op ra rb rc : Nat) (b : Bool)
    (z : List Nat)
    (h : instruction_call s op ra rb rc = some (s', b))
    (hfree : ∀ i ∈ s.mem.free, i ≠ 0)
    (h0 : s.mem.segments[0]? = some (some z)) :
    ∃ z', s'.mem.segments[0]? = some (some z') ∧ z'.length = z.length := by
  unfold instruction_call at h
  split at h
  case isFalse => cases h
  case isTrue hguard =>
    obtain ⟨hop, hra, hrb, hrc⟩ := hguard
    interval_cases op
    · obtain ⟨t, ht, hpair⟩ := Option.map_eq_some'.mp h
      rw [Prod.mk.injEq] at hpair
      rw [← hpair.1, conditional_move_mem s t ra rb rc ht]
      exact ⟨z, h0, rfl⟩
    · obtain ⟨t, ht, hpair⟩ := Option.map_eq_some'.mp h
      rw [Prod.mk.injEq] at hpair
      rw [← hpair.1, segmented_load_mem s t ra rb rc ht]
      exact ⟨z, h0, rfl⟩
    · obtain ⟨t, ht, hpair⟩ := Option.map_eq_some'.mp h
      rw [Prod.mk.injEq] at hpair
      rw [← hpair.1]
      exact segmented_store_zero s t ra rb rc z ht h0
    · obtain ⟨t, ht, hpair⟩ := Option.map_eq_some'.mp h
      rw [Prod.mk.injEq] at hpair
      rw [← hpair.1, add_mem s t ra rb rc ht]
      exact ⟨z, h0, rfl⟩
    · obtain ⟨t, ht, hpair⟩ := Option.map_eq_some'.mp h
      rw [Prod.mk.injEq] at hpair
      rw [← hpair.1, multiply_mem s t ra rb rc ht]
      exact ⟨z, h0, rfl⟩
    · obtain ⟨t, ht, hpair⟩ := Option.map_eq_some'.mp h
      rw [Prod.mk.injEq] at hpair
      rw [← hpair.1, divide_mem s t ra rb rc ht]
      exact ⟨z, h0, rfl⟩
    · obtain ⟨t, ht, hpair⟩ := Option.map_eq_some'.mp h
      rw [Prod.mk.injEq] at hpair
      rw [← hpair.1, nand_mem s t ra rb rc ht]
      exact ⟨z, h0, rfl⟩
    · rw [Option.some.injEq, Prod.mk.injEq] at h
      rw [← h.1]
      exact ⟨z, h0, rfl⟩
    · obtain ⟨t, ht, hpair⟩ := Option.map_eq_some'.mp h
      rw [Prod.mk.injEq] at hpair
      rw [← hpair.1]
      exact ⟨z, map_segment_zero s t ra rb rc (some z) ht hfree h0, rfl⟩
    · obtain ⟨t, ht, hpair⟩ := Option.map_eq_some'.mp h
      rw [Prod.mk.injEq] at hpair
      rw [← hpair.1, unmap_segment_zero s t ra rb rc ht]
      exact ⟨z, h0, rfl⟩
    · obtain ⟨t, ht, hpair⟩ := Option.map_eq_some'.mp h
      rw [Prod.mk.injEq] at hpair
      rw [← hpair.1, output_mem s t ra rb rc ht]
      exact ⟨z, h0, rfl⟩
    · obtain ⟨t, ht, hpair⟩ := Option.map_eq_some'.mp h
      rw [Prod.mk.injEq] at hpair
      rw [← hpair.1, input_mem s t ra rb rc ht]
      exact ⟨z, h0, rfl⟩
    · rw [Option.some.injEq, Prod.mk.injEq] at h
      rw [← h.1]
      exact ⟨z, h0, rfl⟩
    · rw [Option.some.injEq, Prod.mk.injEq] at h
      rw [← h.1]
      exact ⟨z, h0, rfl⟩

/-! ## Lemmas about `load_program` -/

/-- `load_program` always sets the program counter to `r[C]` — both
when `r[B] = 0` (no copy) and when a copy is made. -/
theorem load_program_pc (s s' : UMState) (ra rb rc : Nat)
    (h : load_program s ra rb rc = some s') :
    s'.pc = registers_get s.reg rc := by
  unfold load_program at h
  split at h
  · simp only [] at h
    split at h
    · injection h with h; subst h; rfl
    · split at h
      all_goals try cases h
      split at h
      all_goals try cases h
      all_goals rfl
  · cases h

/-- A successful `load_program` leaves segment zero mapped. -/
theorem load_program_zero (s s' : UMState) (ra rb rc : Nat) (z : List Nat)
    (h : load_program s ra rb rc = some s')
    (h0 : s.mem.segments[0]? = some (some z)) :
    ∃ z', s'.mem.segments[0]? = some (some z') := by
  unfold load_program at h
  split at h
  · simp only [] at h
    split at h
    · injection h with h; subst h; exact ⟨z, h0⟩
    · split at h
      case _ to_copy heq =>
        split at h
        case _ zz heq0 =>
          injection h with h
          subst h
          have hlt : 0 < s.mem.segments.length :=
            (List.getElem?_eq_some_iff.mp h0).1
          exact ⟨to_copy, by simp [List.getElem?_set_self hlt]⟩
        case _ => cases h
      case _ => cases h
  · cases h

/-- C2: in every iteration of `um_execute`'s loop the program counter is
incremented before handler dispatch; after a LOADP instruction (opcode
12) the program counter equals `r[C]` — the increment is overridden,
also when `r[B] = 0` and no copy is performed — and after every other
instruction that leaves the loop running the program counter equals its
pre-fetch value plus one. -/
theorem pc_discipline (s s' : UMState) (seg_zero : List Nat)
    (h0 : s.mem.segments[0]? = some (some seg_zero))
    (hpc : s.pc < seg_zero.length)
    (hstep : step s = Outcome.running s') :
    (opcode_of (seg_zero.getD s.pc 0) = 12 →
       s'.pc = registers_get s.reg (rc_std (seg_zero.getD s.pc 0))) ∧
    (opcode_of (seg_zero.getD s.pc 0) ≠ 12 → s'.pc = s.pc + 1) := by
  unfold step at hstep
  rw [h0] at hstep
  simp only [] at hstep
  by_cases h31 : 2 ^ 31 ≤ s.pc
  · rw [if_pos h31] at hstep
    cases hstep
  rw [if_neg h31, if_pos hpc] at hstep
  by_cases h13 : opcode_of (seg_zero.getD s.pc 0) = 13
  · rw [if_pos h13] at hstep
    constructor
    · intro h12
      rw [h12] at h13
      omega
    · intro _
      split at hstep
      case _ s2 heq =>
        injection hstep with hstep
        subst hstep
        exact load_value_pc _ _ _ _ heq
      case _ => cases hstep
  · rw [if_neg h13] at hstep
    by_cases h12 : opcode_of (seg_zero.getD s.pc 0) = 12
    · rw [if_pos h12] at hstep
      constructor
      · intro _
        split at hstep
        case _ s2 heq =>
          injection hstep with hstep
          subst hstep
          exact load_program_pc _ _ _ _ _ heq
        case _ => cases hstep
      · intro hne
        exact absurd h12 hne
    · rw [if_neg h12] at hstep
      refine ⟨fun hc => absurd hc h12, fun _ => ?_⟩
      split at hstep
      case _ s2 heq =>
        cases hstep
      case _ s2 heq =>
        injection hstep with hstep
        subst hstep
        exact instruction_call_pc _ _ _ _ _ _ false heq
      case _ => cases hstep

/-- C5: for every 32-bit instruction word the decoder extracts the
opcode from bits 31–28; register A from bits 8–6, register B from bits
5–3 and register C from bits 2–0 (the standard format used by opcodes
0–12, the formulas depending only on those bits, so bits 27–9 are
ignored); and, for the load-value format of opcode 13, register A from
bits 27–25 and a 25-bit immediate from bits 24–0 that is zero-extended
(its value is below `2^25`, hence a valid 32-bit word). -/
theorem decode_fields (word : Nat) (hword : word < 2 ^ 32) :
    opcode_of word = word / 2 ^ 28 % 2 ^ 4 ∧
    ra_std word = word / 2 ^ 6 % 2 ^ 3 ∧
    rb_std word = word / 2 ^ 3 % 2 ^ 3 ∧
    rc_std word = word % 2 ^ 3 ∧
    ra_lv word = word / 2 ^ 25 % 2 ^ 3 ∧
    value_lv word = word % 2 ^ 25 ∧
    value_lv word < 2 ^ 32 := by
  unfold opcode_of ra_std rb_std rc_std ra_lv value_lv
  refine ⟨?_, ?_, ?_, ?_, ?_, ?_, ?_⟩ <;> omega

/-- C6: a fetched word whose opcode field is 14 or 15 makes the
dispatcher's `assert(op < 14)` fail — the machine aborts with a fatal
error and no new state is produced. -/
theorem undefined_opcode_fatal (s : UMState) (seg_zero : List Nat)
    (h0 : s.mem.segments[0]? = some (some seg_zero))
    (hpc : s.pc < seg_zero.length)
    (hop : opcode_of (seg_zero.getD s.pc 0) = 14 ∨
           opcode_of (seg_zero.getD s.pc 0) = 15) :
    step s = Outcome.fatal := by
  unfold step
  rw [h0]
  simp only []
  by_cases h31 : 2 ^ 31 ≤ s.pc
  · rw [if_pos h31]
  rw [if_neg h31, if_pos hpc]
  have h13 : opcode_of (seg_zero.getD s.pc 0) ≠ 13 := by omega
  have h12 : opcode_of (seg_zero.getD s.pc 0) ≠ 12 := by omega
  rw [if_neg h13, if_neg h12]
  have hic : instruction_call { s with pc := s.pc + 1 }
      (opcode_of (seg_zero.getD s.pc 0)) (ra_std (seg_zero.getD s.pc 0))
      (rb_std (seg_zero.getD s.pc 0)) (rc_std (seg_zero.getD s.pc 0)) = none := by
    unfold instruction_call
    rw [if_neg]
    intro hcon
    omega
  rw [hic]

/-- `(uint32_t)(-1)` — the value the EOF branch finally leaves in the
register — is all ones. -/
theorem int_to_u32_neg_one : int_to_u32 (-1) = 2 ^ 32 - 1 := by decide

theorem int_to_u32_ofNat (b : Nat) (hb : b < 2 ^ 32) :
    int_to_u32 (Int.ofNat b) = b := by
  unfold int_to_u32
  rw [Int.ofNat_eq_natCast]
  omega

/-- C3: executing IN with the host input at EOF leaves
`2^32 − 1 = 0xFFFFFFFF` in `r[C]` (the handler writes `~0` and then
overwrites it with `(uint32_t)EOF`, the same value); otherwise `r[C]`
receives the consumed byte, a value in `[0, 255]`. -/
theorem input_eof_or_byte (s : UMState) (ra rb rc : Nat)
    (hreg : s.reg.length = 8) (hra : ra < 8) (hrb : rb < 8) (hrc : rc < 8) :
    (s.inp = [] → ∃ s', input s ra rb rc = some s' ∧
       registers_get s'.reg rc = 2 ^ 32 - 1) ∧
    (∀ b rest, s.inp = b :: rest → b < 256 →
       ∃ s', input s ra rb rc = some s' ∧
         registers_get s'.reg rc = b ∧ b ≤ 255) := by
  constructor
  · intro hinp
    refine ⟨{ s with reg := registers_put (registers_put s.reg rc (2 ^ 32 - 1))
                             rc (int_to_u32 (-1)) }, ?_, ?_⟩
    · unfold input
      rw [if_pos ⟨hra, hrb, hrc⟩, hinp]
    · rw [registers_get_put_self _ _ _
        (by rw [registers_put_length, hreg]; exact hrc)]
      exact int_to_u32_neg_one
  · intro b rest hinp hb
    refine ⟨{ s with reg := registers_put s.reg rc (int_to_u32 (Int.ofNat b)),
                     inp := rest }, ?_, ?_, ?_⟩
    · unfold input
      rw [if_pos ⟨hra, hrb, hrc⟩, hinp]
    · rw [registers_get_put_self _ _ _ (by rw [hreg]; exact hrc)]
      exact int_to_u32_ofNat b (by omega)
    · omega

/-- A successful `memory_put` is read back by `memory_get`. -/
theorem memory_get_put (m m' : Memory) (seg off val : Nat)
    (h : memory_put m seg off val = some m') :
    memory_get m' seg off = some val := by
  unfold memory_put at h
  split at h
  case _ qs heq =>
    split at h
    case isTrue hoff =>
      injection h with h
      subst h
      unfold memory_get
      have hlt : seg < m.segments.length := (List.getElem?_eq_some_iff.mp heq).1
      simp only [List.getElem?_set_self hlt]
      rw [List.getElem?_set_self hoff]
    case isFalse => cases h
  case _ => cases h

/-- C7: for every mapped segment and in-bounds offset, an SSTORE of `v`
to `(seg, off)` followed by an SLOAD whose registers name the same
`(seg, off)` loads `v` into the SLOAD destination register. -/
theorem sstore_sload_roundtrip (s s1 : UMState) (ra rb rc ra' rb' rc' : Nat)
    (hreg : s.reg.length = 8)
    (hra' : ra' < 8) (hrb' : rb' < 8) (hrc' : rc' < 8)
    (hstore : segmented_store s ra rb rc = some s1)
    (hseg : registers_get s1.reg rb' = registers_get s.reg ra)
    (hoff : registers_get s1.reg rc' = registers_get s.reg rb) :
    ∃ s2, segmented_load s1 ra' rb' rc' = some s2 ∧
      registers_get s2.reg ra' = registers_get s.reg rc := by
  unfold segmented_store at hstore
  split at hstore
  case isFalse => cases hstore
  case isTrue hg =>
    simp only [] at hstore
    split at hstore
    case _ m hput =>
      injection hstore with hstore
      subst hstore
      simp only [] at hseg hoff
      have hget : memory_get m (registers_get s.reg ra) (registers_get s.reg rb)
          = some (registers_get s.reg rc) := memory_get_put _ _ _ _ _ hput
      refine ⟨{ reg := registers_put s.reg ra' (registers_get s.reg rc),
                mem := m, pc := s.pc, inp := s.inp, outp := s.outp }, ?_, ?_⟩
      · unfold segmented_load
        rw [if_pos ⟨hra', hrb', hrc'⟩]
        simp only []
        rw [hseg, hoff, hget]
      · exact registers_get_put_self _ _ _ (by rw [hreg]; exact hra')
    case _ => cases hstore

/-- C1: LOADP with `r[B] ≠ 0` on a mapped segment `r[B]` of contents
`segB` replaces segment zero by exactly those words (in the functional
model the copy is by value, so no storage is shared), leaves segment
`r[B]` mapped and unchanged — as is every other non-zero id — and sets
the program counter to `r[C]`; the registers and the free list are
untouched. -/
theorem load_program_deep_copy (s : UMState) (ra rb rc : Nat) (segB : List Nat)
    (hra : ra < 8) (hrb : rb < 8) (hrc : rc < 8)
    (hBnz : registers_get s.reg rb ≠ 0)
    (hB : s.mem.segments[registers_get s.reg rb]? = some (some segB))
    (h0 : ∃ z, s.mem.segments[0]? = some (some z)) :
    ∃ s', load_program s ra rb rc = some s' ∧
      s'.mem.segments[0]? = some (some segB) ∧
      s'.mem.segments[registers_get s.reg rb]? = some (some segB) ∧
      s'.pc = registers_get s.reg rc ∧
      (∀ id, id ≠ 0 → s'.mem.segments[id]? = s.mem.segments[id]?) ∧
      s'.reg = s.reg ∧ s'.mem.free = s.mem.free := by
  obtain ⟨z, h0⟩ := h0
  have hlt : 0 < s.mem.segments.length := (List.getElem?_eq_some_iff.mp h0).1
  refine ⟨{ s with
            mem := { s.mem with segments := s.mem.segments.set 0 (some segB) },
            pc := registers_get s.reg rc }, ?_, ?_, ?_, rfl, ?_, rfl, rfl⟩
  · unfold load_program
    rw [if_pos ⟨hra, hrb, hrc⟩]
    simp only []
    rw [if_neg hBnz, hB, h0]
  · simp [List.getElem?_set_self hlt]
  · rw [List.getElem?_set_ne (Ne.symm hBnz)]
    exact hB
  · intro id hid
    exact List.getElem?_set_ne (Ne.symm hid)

/-- C10: MAP writes only register B — every other register keeps its
value — and leaves the contents of every previously mapped segment
unchanged; afterwards `r[B]` holds an id whose slot is the freshly
mapped zero-filled segment of length `r[C]`.  The hypothesis is spec
invariant 2: every id on the free list denotes an unmapped (NULL) slot
of the table. -/
theorem map_segment_frame (s s' : UMState) (ra rb rc : Nat)
    (hreg : s.reg.length = 8) (hrb : rb < 8)
    (hfree : ∀ i ∈ s.mem.free, s.mem.segments[i]? = some none)
    (hmap : map_segment s ra rb rc = some s') :
    (∀ j, j ≠ rb → registers_get s'.reg j = registers_get s.reg j) ∧
    (∀ (id : Nat) (seg : List Nat), s.mem.segments[id]? = some (some seg) →
       s'.mem.segments[id]? = some (some seg)) ∧
    s'.mem.segments[registers_get s'.reg rb]? =
      some (some (List.replicate (registers_get s.reg rc) 0)) := by
  unfold map_segment at hmap
  split at hmap
  case isFalse => cases hmap
  case isTrue hg =>
    split at hmap
    case _ m index hmm =>
      injection hmap with hmap
      subst hmap
      simp only []
      unfold memory_map at hmm
      split at hmm
      case _ hnil =>
        injection hmm with hmm
        injection hmm with hm hidx
        subst hm
        subst hidx
        refine ⟨?_, ?_, ?_⟩
        · intro j hj
          exact registers_get_put_ne _ _ _ _ hj
        · intro id seg hid
          simp only []
          have hlt : id < s.mem.segments.length :=
            (List.getElem?_eq_some_iff.mp hid).1
          rw [List.getElem?_append_left hlt]
          exact hid
        · rw [registers_get_put_self _ _ _ (by rw [hreg]; exact hrb)]
          simp only []
          exact List.getElem?_concat_length _ _
      case _ i rest hcons =>
        split at hmm
        case isTrue hi =>
          injection hmm with hmm
          injection hmm with hm hidx
          subst hm
          subst hidx
          have hinull : s.mem.segments[i]? = some none :=
            hfree i (by rw [hcons]; exact List.mem_cons_self i rest)
          refine ⟨?_, ?_, ?_⟩
          · intro j hj
            exact registers_get_put_ne _ _ _ _ hj
          · intro id seg hid
            simp only []
            have hne : i ≠ id := by
              intro hico
              subst hico
              rw [hinull] at hid
              injection hid with hid
              cases hid
            rw [List.getElem?_set_ne hne]
            exact hid
          · rw [registers_get_put_self _ _ _ (by rw [hreg]; exact hrb)]
            simp only []
            exact List.getElem?_set_self hi
        case isFalse => cases hmm
    case _ => cases hmap

/-- A memory state reached from `memory_new` by three maps and an
unmap of id 1: the free list is then `[4, 5, 6, 7, 8, 9, 1]`, with the
recycled id 1 at the back of the queue. -/
def c4_mem : Memory :=
  let m0 := memory_new 1
  let m1 := ((memory_map m0 1).map Prod.fst).getD m0
  let m2 := ((memory_map m1 1).map Prod.fst).getD m1
  let m3 := ((memory_map m2 1).map Prod.fst).getD m2
  (memory_unmap m3 1).getD m3

/-- C4 counterexample: in the reachable state `c4_mem`, id 1 is
unmapped (and on the free list), yet `memory_map` returns id 4 — not
the smallest previously-unmapped id. -/
theorem memory_map_not_smallest :
    (memory_map c4_mem 1).map Prod.snd = some 4 ∧
    c4_mem.segments[1]? = some none ∧
    1 ∈ c4_mem.free ∧
    (1 : Nat) < 4 := by decide

/-- C4 amended: `map(length)` pops the id at the *front* of the free
queue (the least recently freed id, not the smallest) when the free
list is non-empty, and otherwise extends the segment table by one and
returns the new index; either way the returned slot holds a zero-filled
segment of exactly the requested length.  The hypothesis is spec
invariant 2: free ids denote unmapped in-table slots. -/
theorem memory_map_front_of_free (m : Memory) (len : Nat)
    (hfree : ∀ i ∈ m.free, m.segments[i]? = some none) :
    ∃ m' index, memory_map m len = some (m', index) ∧
      (m.free ≠ [] → some index = m.free.head?) ∧
      (m.free = [] → index = m.segments.length ∧
         m'.segments.length = m.segments.length + 1) ∧
      (∀ off, off < len → memory_get m' index off = some 0) ∧
      (∀ off, len ≤ off → memory_get m' index off = none) ∧
      m'.free = m.free.tail := by
  cases hfr : m.free with
  | nil =>
      refine ⟨{ segments := m.segments ++ [some (List.replicate len 0)],
                free := [] }, m.segments.length, ?_, ?_, ?_, ?_, ?_, ?_⟩
      · unfold memory_map
        rw [hfr]
      · intro hne
        exact absurd rfl hne
      · intro _
        exact ⟨rfl, by simp⟩
      · intro off hoff
        unfold memory_get
        simp only [List.getElem?_concat_length]
        rw [List.getElem?_replicate, if_pos hoff]
      · intro off hoff
        unfold memory_get
        simp only [List.getElem?_concat_length]
        rw [List.getElem?_replicate, if_neg (by omega)]
      · rfl
  | cons i rest =>
      have hinull : m.segments[i]? = some none :=
        hfree i (by rw [hfr]; exact List.mem_cons_self i rest)
      have hi : i < m.segments.length := (List.getElem?_eq_some_iff.mp hinull).1
      refine ⟨{ segments := m.segments.set i (some (List.replicate len 0)),
                free := rest }, i, ?_, ?_, ?_, ?_, ?_, ?_⟩
      · unfold memory_map
        rw [hfr]
        simp only []
        rw [if_pos hi]
      · intro _
        rfl
      · intro h
        exact absurd h (List.cons_ne_nil i rest)
      · intro off hoff
        unfold memory_get
        simp only [List.getElem?_set_self hi]
        rw [List.getElem?_replicate, if_pos hoff]
      · intro off hoff
        unfold memory_get
        simp only [List.getElem?_set_self hi]
        rw [List.getElem?_replicate, if_neg (by omega)]
      · rfl

/-- When the program counter is at or past the end of segment zero but
still below `2^31` (so its `int` conversion is non-negative) the loop
exits as graceful off-the-end termination. -/
theorem step_finished_of_pc_ge (s : UMState) (z : List Nat)
    (h0 : s.mem.segments[0]? = some (some z)) (hge : z.length ≤ s.pc)
    (h31 : s.pc < 2 ^ 31) :
    step s = Outcome.finished s := by
  unfold step
  rw [h0]
  simp only []
  rw [if_neg (by omega), if_neg (by omega)]

/-- When the counter's `uint32_t` value is `2^31` or more, its `int`
conversion is negative: the loop guard passes and the fetch at a
negative index fails `UArray_at`'s bounds assert — a fatal abort, not
graceful termination. -/
theorem step_fatal_of_pc_wrap (s : UMState) (z : List Nat)
    (h0 : s.mem.segments[0]? = some (some z)) (h31 : 2 ^ 31 ≤ s.pc) :
    step s = Outcome.fatal := by
  unfold step
  rw [h0]
  simp only []
  rw [if_pos h31]

/-- The two-word program `LV r1 ← 100; LOADP r[B]=r0, r[C]=r1`
(big-endian file bytes below): after two iterations the loop is still
live and the program counter is 100 while segment zero has length 2. -/
def c8_run : MainResult :=
  um_main 2 [0xD2, 0x00, 0x00, 0x64, 0xC0, 0x00, 0x00, 0x01] [] 2

/-- The two-word program `IN r1; LOADP r[B]=r0, r[C]=r1` run at EOF:
IN leaves `0xFFFFFFFF` in `r1`, LOADP stores it into the program
counter. -/
def c8_wrap_run (fuel : Nat) : MainResult :=
  um_main 2 [0xB0, 0x00, 0x00, 0x01, 0xC0, 0x00, 0x00, 0x01] [] fuel

/-- C8 counterexample: reachable mid-execution states (produced from
real program files by `um_main`) violating the claimed invariant.
After `LV r1 ← 100; LOADP`, the loop is still live with program
counter 100, strictly beyond length(segment 0) = 2 — LOADP installed
`r[C]` unchecked.  After `IN r1` (at EOF) and `LOADP`, the counter is
`0xFFFFFFFF = 2^32 − 1` (negative as the C's `int`), and the next
iteration aborts fatally on the negative-index fetch rather than
terminating gracefully. -/
theorem pc_exceeds_seg_zero_len :
    main_is_running c8_run = true ∧
    main_pc c8_run = some 100 ∧
    main_seg_zero_len c8_run = some 2 ∧
    main_is_running (c8_wrap_run 2) = true ∧
    main_pc (c8_wrap_run 2) = some 4294967295 ∧
    main_seg_zero_len (c8_wrap_run 2) = some 2 ∧
    main_is_fatal (c8_wrap_run 3) = true := by decide

/-- C8 amended: the program counter stays in `[0, length(segment 0)]`
after every instruction except LOADP — it becomes the pre-fetch value
plus one, which is at most the (unchanged) length of segment zero.
LOADP stores `r[C]` into the `int` program counter without any bound
check, so it can leave that range; the state that follows depends on
the stored value: at or past the end of segment zero but below `2^31`
(non-negative as `int`), the next loop iteration terminates gracefully
as if the program ran off the end; at `2^31` or above (negative as
`int`, e.g. `0xFFFFFFFF` obtained from IN at EOF), the loop guard
passes and the negative-index fetch aborts fatally.  (Hypothesis: id 0
is not on the free list — spec invariant 2.) -/
theorem pc_bound_non_loadp (s s' : UMState) (seg_zero : List Nat)
    (h0 : s.mem.segments[0]? = some (some seg_zero))
    (hpc : s.pc < seg_zero.length)
    (hfree : ∀ i ∈ s.mem.free, i ≠ 0)
    (hstep : step s = Outcome.running s') :
    ∃ seg_zero', s'.mem.segments[0]? = some (some seg_zero') ∧
      (opcode_of (seg_zero.getD s.pc 0) ≠ 12 →
         seg_zero'.length = seg_zero.length ∧ s'.pc = s.pc + 1 ∧
         s'.pc ≤ seg_zero'.length) ∧
      (seg_zero'.length ≤ s'.pc → s'.pc < 2 ^ 31 →
         step s' = Outcome.finished s') ∧
      (2 ^ 31 ≤ s'.pc → step s' = Outcome.fatal) := by
  unfold step at hstep
  rw [h0] at hstep
  simp only [] at hstep
  by_cases h31 : 2 ^ 31 ≤ s.pc
  · rw [if_pos h31] at hstep
    cases hstep
  rw [if_neg h31, if_pos hpc] at hstep
  by_cases h13 : opcode_of (seg_zero.getD s.pc 0) = 13
  · rw [if_pos h13] at hstep
    split at hstep
    case _ s2 heq =>
      injection hstep with hstep
      subst hstep
      have hmem := load_value_mem _ _ _ _ heq
      have hpcs := load_value_pc _ _ _ _ heq
      refine ⟨seg_zero, by rw [hmem]; exact h0, ?_, ?_, ?_⟩
      · intro _
        exact ⟨rfl, by rw [hpcs], by rw [hpcs]; simp only []; omega⟩
      · intro hge h31s
        exact step_finished_of_pc_ge _ seg_zero (by rw [hmem]; exact h0) hge h31s
      · intro h31s
        exact step_fatal_of_pc_wrap _ seg_zero (by rw [hmem]; exact h0) h31s
    case _ => cases hstep
  · rw [if_neg h13] at hstep
    by_cases h12 : opcode_of (seg_zero.getD s.pc 0) = 12
    · rw [if_pos h12] at hstep
      split at hstep
      case _ s2 heq =>
        injection hstep with hstep
        subst hstep
        obtain ⟨z', hz'⟩ := load_program_zero _ _ _ _ _ seg_zero heq h0
        refine ⟨z', hz', fun hc => absurd h12 hc, ?_, ?_⟩
        · intro hge h31s
          exact step_finished_of_pc_ge _ z' hz' hge h31s
        · intro h31s
          exact step_fatal_of_pc_wrap _ z' hz' h31s
      case _ => cases hstep
    · rw [if_neg h12] at hstep
      split at hstep
      case _ s2 heq => cases hstep
      case _ s2 heq =>
        injection hstep with hstep
        subst hstep
        obtain ⟨z', hz', hlen⟩ :=
          instruction_call_zero _ _ _ _ _ _ false seg_zero heq hfree h0
        have hpcs := instruction_call_pc _ _ _ _ _ _ false heq
        refine ⟨z', hz', ?_, ?_, ?_⟩
        · intro _
          refine ⟨hlen, by rw [hpcs], ?_⟩
          rw [hpcs, hlen]
          simp only []
          omega
        · intro hge h31s
          exact step_finished_of_pc_ge _ z' hz' hge h31s
        · intro h31s
          exact step_fatal_of_pc_wrap _ z' hz' h31s
      case _ => cases hstep

/-- `memory_new` installs segment zero (a zero-filled segment of the
requested length) at slot 0. -/
theorem memory_new_seg_zero (length : Nat) :
    (memory_new length).segments[0]? = some (some (List.replicate length 0)) := by
  rfl

/-- The populate loop never hits its assert: as long as every offset it
writes is within segment zero, it succeeds and preserves segment zero's
length. -/
theorem populate_go_isSome (bytes : List Nat) :
    ∀ (remaining : Nat) (s : UMState) (index : Nat) (arr : List Nat),
      s.mem.segments[0]? = some (some arr) →
      index + remaining ≤ arr.length →
      (populate_go remaining s bytes index).isSome = true := by
  intro remaining
  induction remaining with
  | zero =>
      intro s index arr h0 hle
      rfl
  | succ n ih =>
      intro s index arr h0 hle
      have hidx : index < arr.length := by omega
      have hlt : 0 < s.mem.segments.length := (List.getElem?_eq_some_iff.mp h0).1
      unfold populate_go
      have hput : memory_put s.mem 0 index
          (construct_word (bytes.drop (4 * index))) =
          some { s.mem with
                 segments := s.mem.segments.set 0
                   (some (arr.set index (construct_word (bytes.drop (4 * index))))) } := by
        unfold memory_put
        rw [h0]
        simp only []
        rw [if_pos hidx]
      rw [hput]
      exact ih _ (index + 1)
        (arr.set index (construct_word (bytes.drop (4 * index))))
        (by simp [List.getElem?_set_self hlt])
        (by simp only [List.length_set]; omega)

/-- A seven-byte program file (the HALT word `0x70000000` followed by
three stray bytes). -/
def c9_run : MainResult :=
  um_main 2 [0x70, 0x00, 0x00, 0x00, 0x00, 0x00, 0x00] [] 1

/-- C9 counterexample: the file's size, 7 bytes, is not a multiple of
4, yet `main` reports no invocation error — it truncates to
`7 / 4 = 1` word, executes it, and the machine HALTs with success. -/
theorem file_size_not_checked :
    main_is_halted c9_run = true ∧ (7 : Nat) % 4 ≠ 0 := by decide

/-- C9 amended: `main` never checks the file size for divisibility by
4; for any argument-count-2 invocation — in particular whenever the
byte count is not a multiple of 4 — it computes `⌊size/4⌋` words, loads
them into segment zero and proceeds to execute (no invocation error,
no early exit). -/
theorem um_main_ignores_size_mod (fileBytes inp : List Nat) (fuel : Nat)
    (h4 : fileBytes.length % 4 ≠ 0) :
    main_is_run (um_main 2 fileBytes inp fuel) = true := by
  unfold um_main
  rw [if_neg (by omega)]
  simp only []
  have hsome : (populate_seg_zero (um_new (fileBytes.length / 4) inp) fileBytes
      (fileBytes.length / 4)).isSome = true := by
    unfold populate_seg_zero
    exact populate_go_isSome fileBytes (fileBytes.length / 4)
      (um_new (fileBytes.length / 4) inp) 0
      (List.replicate (fileBytes.length / 4) 0)
      (memory_new_seg_zero (fileBytes.length / 4))
      (by simp)
  obtain ⟨s1, hs1⟩ := Option.isSome_iff_exists.mp hsome
  rw [hs1]
  rfl

/-! ## Concrete witness states -/

/-- A one-instruction state: `ADD r0 ← r0 + r0` with `r0 = 1`. -/
def w2s : UMState :=
  { reg := [1, 0, 0, 0, 0, 0, 0, 0],
    mem := { segments := [some [0x30000000]], free := [] },
    pc := 0, inp := [], outp := [] }

/-- The state after one step of `w2s`. -/
def w2s' : UMState :=
  { reg := [2, 0, 0, 0, 0, 0, 0, 0],
    mem := { segments := [some [0x30000000]], free := [] },
    pc := 1, inp := [], outp := [] }

theorem pc_discipline_witness : w2s'.pc = w2s.pc + 1 :=
  (pc_discipline w2s w2s' [0x30000000] (by decide) (by decide) (by decide)).2
    (by decide)

theorem decode_fields_witness :
    opcode_of 0xD2000064 = 0xD2000064 / 2 ^ 28 % 2 ^ 4 ∧
    ra_std 0xD2000064 = 0xD2000064 / 2 ^ 6 % 2 ^ 3 ∧
    rb_std 0xD2000064 = 0xD2000064 / 2 ^ 3 % 2 ^ 3 ∧
    rc_std 0xD2000064 = 0xD2000064 % 2 ^ 3 ∧
    ra_lv 0xD2000064 = 0xD2000064 / 2 ^ 25 % 2 ^ 3 ∧
    value_lv 0xD2000064 = 0xD2000064 % 2 ^ 25 ∧
    value_lv 0xD2000064 < 2 ^ 32 :=
  decode_fields 0xD2000064 (by decide)

/-- A one-instruction state holding the undefined opcode 14. -/
def w6s : UMState :=
  { reg := List.replicate 8 0,
    mem := { segments := [some [0xE0000000]], free := [] },
    pc := 0, inp := [], outp := [] }

theorem undefined_opcode_fatal_witness : step w6s = Outcome.fatal :=
  undefined_opcode_fatal w6s [0xE0000000] (by decide) (by decide)
    (Or.inl (by decide))

/-- A state whose host input is at EOF. -/
def w3s : UMState :=
  { reg := List.replicate 8 0,
    mem := { segments := [some []], free := [] },
    pc := 0, inp := [], outp := [] }

theorem input_eof_or_byte_witness :
    ∃ s', input w3s 0 0 2 = some s' ∧ registers_get s'.reg 2 = 2 ^ 32 - 1 :=
  (input_eof_or_byte w3s 0 0 2 (by decide) (by decide) (by decide) (by decide)).1
    rfl

/-- A state about to SSTORE 9 into segment 0 at offset 1
(`r[A]=0, r[B]=1, r[C]=9` through registers 0, 1, 2). -/
def w7s : UMState :=
  { reg := [0, 1, 9, 0, 0, 0, 0, 0],
    mem := { segments := [some [5, 5]], free := [] },
    pc := 0, inp := [], outp := [] }

/-- `w7s` after the SSTORE. -/
def w7s1 : UMState :=
  { reg := [0, 1, 9, 0, 0, 0, 0, 0],
    mem := { segments := [some [5, 9]], free := [] },
    pc := 0, inp := [], outp := [] }

theorem sstore_sload_roundtrip_witness :
    ∃ s2, segmented_load w7s1 3 0 1 = some s2 ∧
      registers_get s2.reg 3 = registers_get w7s.reg 2 :=
  sstore_sload_roundtrip w7s w7s1 0 1 2 3 0 1 (by decide) (by decide)
    (by decide) (by decide) (by decide) (by decide) (by decide)

/-- A state about to LOADP from segment `r[B] = 1` with `r[C] = 5`. -/
def w1s : UMState :=
  { reg := [0, 1, 5, 0, 0, 0, 0, 0],
    mem := { segments := [some [7, 7], some [1, 2, 3]], free := [] },
    pc := 0, inp := [], outp := [] }

theorem load_program_deep_copy_witness :
    ∃ s', load_program w1s 0 1 2 = some s' ∧
      s'.mem.segments[0]? = some (some [1, 2, 3]) ∧
      s'.mem.segments[registers_get w1s.reg 1]? = some (some [1, 2, 3]) ∧
      s'.pc = registers_get w1s.reg 2 ∧
      (∀ id, id ≠ 0 → s'.mem.segments[id]? = w1s.mem.segments[id]?) ∧
      s'.reg = w1s.reg ∧ s'.mem.free = w1s.mem.free :=
  load_program_deep_copy w1s 0 1 2 [1, 2, 3] (by decide) (by decide)
    (by decide) (by decide) (by decide) ⟨[7, 7], by decide⟩

/-- A state about to MAP a 3-word segment (`r[C] = r7 = 3`,
result id into `r[B] = r1`); the free list holds the unmapped slot 2. -/
def w10s : UMState :=
  { reg := [0, 0, 0, 0, 0, 0, 0, 3],
    mem := { segments := [some [], some [4], none], free := [2] },
    pc := 0, inp := [], outp := [] }

/-- `w10s` after the MAP. -/
def w10s' : UMState :=
  { reg := [0, 2, 0, 0, 0, 0, 0, 3],
    mem := { segments := [some [], some [4], some [0, 0, 0]], free := [] },
    pc := 0, inp := [], outp := [] }

theorem map_segment_frame_witness :
    (∀ j, j ≠ 1 → registers_get w10s'.reg j = registers_get w10s.reg j) ∧
    (∀ (id : Nat) (seg : List Nat),
       w10s.mem.segments[id]? = some (some seg) →
       w10s'.mem.segments[id]? = some (some seg)) ∧
    w10s'.mem.segments[registers_get w10s'.reg 1]? =
      some (some (List.replicate (registers_get w10s.reg 7) 0)) :=
  map_segment_frame w10s w10s' 0 1 7 (by decide) (by decide) (by decide)
    (by decide)

/-- A two-slot memory whose free list holds the unmapped slot 1. -/
def w4m : Memory := { segments := [some [], none], free := [1] }

theorem memory_map_front_of_free_witness :
    ∃ m' index, memory_map w4m 2 = some (m', index) ∧
      (w4m.free ≠ [] → some index = w4m.free.head?) ∧
      (w4m.free = [] → index = w4m.segments.length ∧
         m'.segments.length = w4m.segments.length + 1) ∧
      (∀ off, off < 2 → memory_get m' index off = some 0) ∧
      (∀ off, 2 ≤ off → memory_get m' index off = none) ∧
      m'.free = w4m.free.tail :=
  memory_map_front_of_free w4m 2 (by decide)

theorem pc_bound_non_loadp_witness :
    ∃ seg_zero', w2s'.mem.segments[0]? = some (some seg_zero') ∧
      (opcode_of (([0x30000000] : List Nat).getD w2s.pc 0) ≠ 12 →
         seg_zero'.length = ([0x30000000] : List Nat).length ∧
         w2s'.pc = w2s.pc + 1 ∧ w2s'.pc ≤ seg_zero'.length) ∧
      (seg_zero'.length ≤ w2s'.pc → w2s'.pc < 2 ^ 31 →
         step w2s' = Outcome.finished w2s') ∧
      (2 ^ 31 ≤ w2s'.pc → step w2s' = Outcome.fatal) :=
  pc_bound_non_loadp w2s w2s' [0x30000000] (by decide) (by decide) (by decide)
    (by decide)

theorem um_main_ignores_size_mod_witness :
    ([1, 2, 3] : List Nat).length % 4 ≠ 0 ∧
    main_is_run (um_main 2 [1, 2, 3] [] 0) = true :=
  ⟨by decide, um_main_ignores_size_mod [1, 2, 3] [] 0 (by decide)⟩
